import Mathlib

/-!
Shallow embedding of the market-microstructure core of the
StableCoinMonitoringSystem repository, together with theorems checking the
natural-language specification against the code.

The embedded modules are:
* `Agg`      — `apps/backend/services/liquidity_monitor/aggregator.py`
* `FeatEng`  — `apps/backend/services/feature_engineering.py`
* `AnomM`    — `apps/backend/services/anomaly_model.py`
* `DevCalc`  — `apps/backend/services/deviation_calculator.py`

Numbers are modelled as rationals.  Python's `round(x, n)` (round half to
even on the mathematical value) is modelled by `roundq`.  The numeric square
root used by `np.std` is irrational in general, so functions that call it
take the square-root operation as an explicit argument; no claim below
depends on its values.
-/

/-- Rounding of a rational to the nearest integer, ties going to the even
integer, matching Python's built-in `round` on exact values. -/
def roundHalfEven (x : ℚ) : ℤ :=
  let f := Int.floor x
  let frac := x - f
  if frac < 1/2 then f
  else if 1/2 < frac then f + 1
  else if f % 2 = 0 then f else f + 1

/-- Model of Python's `round(x, n)` for a rational `x`. -/
def roundq (x : ℚ) (n : ℕ) : ℚ :=
  (roundHalfEven (x * 10 ^ n) : ℚ) / 10 ^ n


namespace Agg

/-- Raw order-book level as received from one exchange: a `{price, volume}`
entry that may or may not already carry a `volume_usd` key. -/
structure InLevel where
  price : ℚ
  volume : ℚ
  volume_usd : Option ℚ
deriving DecidableEq

/-- Raw order book: the `bids` / `asks` keys may be absent (`none`), matching
the `"bids" in orderbook` membership tests in the source. -/
structure RawBook where
  timestamp : Option ℤ
  bids : Option (List InLevel)
  asks : Option (List InLevel)
deriving DecidableEq

/-- Order-book level after `convert_volume_to_usd`. -/
structure UsdLevel where
  price : ℚ
  volume : ℚ
  volume_usd : ℚ
deriving DecidableEq

/-- Order book after `convert_volume_to_usd`: a side key is present in the
result only when it was requested and present in the input. -/
structure UsdBook where
  timestamp : Option ℤ
  bids : Option (List UsdLevel)
  asks : Option (List UsdLevel)
deriving DecidableEq

/-- Model of `convert_volume_to_usd(orderbook, current_price, side)`.
For each requested side present in the input it emits every level with
`volume_usd = volume * price` (the level's own price; `current_price` is
never used by the body).  There is no validation of any kind. -/
def convert_volume_to_usd (orderbook : RawBook) (current_price : ℚ)
    (side : String) : UsdBook :=
  { timestamp := orderbook.timestamp
    bids :=
      if side = "bids" ∨ side = "both" then
        orderbook.bids.map
          (List.map (fun b => UsdLevel.mk b.price b.volume (b.volume * b.price)))
      else none
    asks :=
      if side = "asks" ∨ side = "both" then
        orderbook.asks.map
          (List.map (fun a => UsdLevel.mk a.price a.volume (a.volume * a.price)))
      else none }

/-- Flattened level tagged with its source exchange, as built inside
`aggregate_orderbooks`. -/
structure FlatLevel where
  price : ℚ
  volume_usd : ℚ
  exchange : String
deriving DecidableEq

/-- Effective USD volume of a raw level:
`bid.get("volume_usd", bid["volume"] * bid["price"])`. -/
def effUsd (l : InLevel) : ℚ :=
  l.volume_usd.getD (l.volume * l.price)

/-- Collect all bid levels across exchanges (`all_bids` in the source);
an absent `bids` key contributes nothing. -/
def flattenBids (orderbooks : List (String × RawBook)) : List FlatLevel :=
  (orderbooks.map (fun p =>
    (p.2.bids.getD []).map (fun b => FlatLevel.mk b.price (effUsd b) p.1))).flatten

/-- Collect all ask levels across exchanges (`all_asks` in the source). -/
def flattenAsks (orderbooks : List (String × RawBook)) : List FlatLevel :=
  (orderbooks.map (fun p =>
    (p.2.asks.getD []).map (fun a => FlatLevel.mk a.price (effUsd a) p.1))).flatten

/-- Bids sorted descending by price (`all_bids.sort(key=price, reverse=True)`). -/
def sortBidsDesc (ls : List FlatLevel) : List FlatLevel :=
  ls.mergeSort (fun a b => decide (b.price ≤ a.price))

/-- Asks sorted ascending by price (`all_asks.sort(key=price)`). -/
def sortAsksAsc (ls : List FlatLevel) : List FlatLevel :=
  ls.mergeSort (fun a b => decide (a.price ≤ b.price))

/-- Merged price level (one entry of `price_map`). -/
structure PLevel where
  price : ℚ
  volume_usd : ℚ
deriving DecidableEq

/-- One step of `_aggregate_by_price`: a Python dict keyed by exact price
updates the (unique) entry for an existing key in place and appends a new
key in insertion order. -/
def aggInsert : List PLevel → FlatLevel → List PLevel
  | [], o => [PLevel.mk o.price o.volume_usd]
  | e :: rest, o =>
    if e.price = o.price then PLevel.mk e.price (e.volume_usd + o.volume_usd) :: rest
    else e :: aggInsert rest o

/-- Model of `_aggregate_by_price(orders)`; `list(price_map.values())`
returns the values in key-insertion order. -/
def aggregate_by_price (orders : List FlatLevel) : List PLevel :=
  orders.foldl aggInsert []

/-- Merged level with running cumulative USD depth. -/
structure CLevel where
  price : ℚ
  volume_usd : ℚ
  cumulative_usd : ℚ
deriving DecidableEq

/-- Cumulative-depth walk of `_sample_orderbook_side` (`cumulative += ...`). -/
def cumulate (acc : ℚ) : List PLevel → List CLevel
  | [] => []
  | o :: rest =>
    CLevel.mk o.price o.volume_usd (acc + o.volume_usd) :: cumulate (acc + o.volume_usd) rest

/-- Model of `_sample_orderbook_side(orders, depth_levels, is_bid)`:
cumulative depth followed by index-based even sampling at
`idx = int(i * len/depth_levels)` guarded by `idx < len`.  (`is_bid` is
accepted and never used, as in the source.  When `depth_levels = 0` and the
list is longer, Python would raise `ZeroDivisionError` computing `step`; the
theorems below therefore assume `0 < depth_levels`.) -/
def sample_orderbook_side (orders : List PLevel) (depth_levels : ℕ)
    (is_bid : Bool) : List CLevel :=
  if orders = [] then []
  else
    let owc := cumulate 0 orders
    if owc.length ≤ depth_levels then owc
    else
      let step : ℚ := (owc.length : ℚ) / (depth_levels : ℚ)
      (List.range depth_levels).filterMap (fun i : ℕ =>
        owc.get? (Int.floor ((i : ℚ) * step)).toNat)

/-- Aggregated order book (the `aggregated_at` wall-clock string is
omitted). -/
structure AggBook where
  bids : List CLevel
  asks : List CLevel
  per_exchange : List (String × (List InLevel × List InLevel))
deriving DecidableEq

/-- Model of `aggregate_orderbooks(orderbooks, depth_levels, method)`.
Both branches of the `method` dispatch in the source are identical
(`"sum"` and the default), so the parameter is dropped. -/
def aggregate_orderbooks (orderbooks : List (String × RawBook))
    (depth_levels : ℕ) : AggBook :=
  if orderbooks = [] then AggBook.mk [] [] []
  else
    { bids := sample_orderbook_side
        (aggregate_by_price (sortBidsDesc (flattenBids orderbooks))) depth_levels true
      asks := sample_orderbook_side
        (aggregate_by_price (sortAsksAsc (flattenAsks orderbooks))) depth_levels false
      per_exchange := orderbooks.map (fun p =>
        (p.1, ((p.2.bids.getD []).take 10, (p.2.asks.getD []).take 10))) }

end Agg

/-- Anomaly-detection feature vector (the 8 features, in the order of
`AnomalyDetectionModel.feature_names`). -/
structure AnomalyFeatures where
  liquidity_depth : ℚ
  liquidity_change_pct : ℚ
  volume_zscore : ℚ
  price_change_pct : ℚ
  orderbook_imbalance : ℚ
  cross_exchange_spread : ℚ
  volatility_spike : ℚ
  bid_ask_spread : ℚ
deriving DecidableEq

namespace FeatEng

/-- Lookup in a Python-dict-modelling association list. -/
def lookupKey {α : Type} : List (String × α) → String → Option α
  | [], _ => none
  | p :: rest, k => if p.1 = k then some p.2 else lookupKey rest k

/-- Dict write `d[k] = v`: update the (unique) existing key in place,
otherwise append in insertion order. -/
def insertKey {α : Type} : List (String × α) → String → α → List (String × α)
  | [], k, v => [(k, v)]
  | p :: rest, k, v =>
    if p.1 = k then (k, v) :: rest else p :: insertKey rest k v

/-- Dict removal `d.pop(k, None)`: a dict holds each key at most once, so
removal eliminates the key from the association list. -/
def eraseKey {α : Type} : List (String × α) → String → List (String × α)
  | [], _ => []
  | p :: rest, k => if p.1 = k then eraseKey rest k else p :: eraseKey rest k

/-- Order-book level as read by `FeatureEngineer`
(`bid.get("price", 0.0)`, `bid.get("volume", 0)`, and the `volume_usd`
key that aggregated books carry alongside). -/
structure FELevel where
  price : ℚ
  volume : ℚ
  volume_usd : ℚ
deriving DecidableEq

/-- Order book passed to the feature calculators
(`orderbook.get("bids", [])` / `orderbook.get("asks", [])`). -/
structure FEBook where
  bids : List FELevel
  asks : List FELevel
deriving DecidableEq

/-- OHLCV candle fields read by the source
(`candle.get("price_close", 1.0)`, `candle.get("volume_traded", 0)`). -/
structure Candle where
  price_close : ℚ
  volume_traded : ℚ
deriving DecidableEq

/-- Mutable rolling state owned by `FeatureEngineer`, keyed by asset symbol.
(The `historical_liquidity` / `historical_prices` deques are used only by
the liquidity-prediction path, which no theorem below touches, and are
omitted.) -/
structure FEState where
  deviation_start_time : List (String × ℚ)
  historical_volumes : List (String × List ℚ)
  previous_liquidity : List (String × ℚ)
  previous_price : List (String × ℚ)
deriving DecidableEq

/-- Empty `FeatureEngineer` state as built by `__init__`. -/
def FEState.init : FEState := ⟨[], [], [], []⟩

/-- Arithmetic mean (`np.mean`) of a list; `0/0 = 0` in `ℚ` for the empty
list, which no guarded call path reaches. -/
def listMean (l : List ℚ) : ℚ := l.sum / l.length

/-- Population variance, so that `np.std l = sqrt (popVar l)`. -/
def popVar (l : List ℚ) : ℚ :=
  ((l.map (fun x => (x - listMean l) ^ 2)).sum) / l.length

/-- Model of `calculate_peg_deviation(current_price)`. -/
def calculate_peg_deviation (current_price : ℚ) : ℚ :=
  roundq ((current_price - 1) / 1 * 100) 4

/-- Model of `calculate_deviation_duration(peg_deviation, stablecoin,
threshold)`.  Wall-clock time is passed explicitly as `now` (seconds); the
source reads `datetime.utcnow()` twice within microseconds, modelled as one
instant.  Returns the duration in minutes (rounded to 2 decimals) and the
updated state. -/
def calculate_deviation_duration (st : FEState) (peg_deviation : ℚ)
    (stablecoin : String) (threshold : ℚ) (now : ℚ) : ℚ × FEState :=
  if threshold < |peg_deviation| then
    let m :=
      match lookupKey st.deviation_start_time stablecoin with
      | some _ => st.deviation_start_time
      | none => insertKey st.deviation_start_time stablecoin now
    let start := (lookupKey m stablecoin).getD now
    (roundq ((now - start) / 60) 2, { st with deviation_start_time := m })
  else
    (0, { st with deviation_start_time := eraseKey st.deviation_start_time stablecoin })

/-- Model of `calculate_volatility(ohlcv_history)`; the numeric square root
of `np.std` is the explicit argument `sqrtQ`. -/
def calculate_volatility (sqrtQ : ℚ → ℚ) (ohlcv_history : List Candle) : ℚ :=
  if ohlcv_history.length < 10 then 0
  else
    let prices := ohlcv_history.map (fun c => c.price_close)
    let mean_price := listMean prices
    let std_price := sqrtQ (popVar prices)
    roundq (if 0 < mean_price then std_price / mean_price else 0) 6

/-- Model of `calculate_liquidity_score(orderbook, depth_levels)`: the sum of
the raw `volume` fields of the top `depth_levels` levels of each side over a
$10M baseline, rounded to 4 decimals; `0.1` if either side is empty. -/
def calculate_liquidity_score (orderbook : FEBook) (depth_levels : ℕ) : ℚ :=
  if orderbook.bids = [] ∨ orderbook.asks = [] then 1/10
  else
    let bid_depth := ((orderbook.bids.take depth_levels).map (fun b => b.volume)).sum
    let ask_depth := ((orderbook.asks.take depth_levels).map (fun a => a.volume)).sum
    roundq ((bid_depth + ask_depth) / 10000000) 4

/-- Model of `calculate_orderbook_imbalance(orderbook)`. -/
def calculate_orderbook_imbalance (orderbook : FEBook) : ℚ :=
  if orderbook.bids = [] ∧ orderbook.asks = [] then 0
  else
    let bid_volume := (orderbook.bids.map (fun b => b.volume)).sum
    let ask_volume := (orderbook.asks.map (fun a => a.volume)).sum
    if bid_volume + ask_volume = 0 then 0
    else roundq ((bid_volume - ask_volume) / (bid_volume + ask_volume)) 4

/-- Model of `calculate_cross_exchange_spread(multi_exchange_prices)`: the
per-exchange dict values are modelled as `Option` prices (a `None` price is
skipped, as in the source). -/
def calculate_cross_exchange_spread
    (multi_exchange_prices : List (String × Option ℚ)) : ℚ :=
  let prices := multi_exchange_prices.filterMap (fun p => p.2)
  match prices with
  | [] => 0
  | p :: rest =>
    if rest = [] then 0
    else
      let max_price := rest.foldl max p
      let min_price := rest.foldl min p
      roundq ((max_price - min_price) / min_price * 100) 4

/-- Model of `calculate_volume_anomaly(ohlcv_history, stablecoin)`: z-score
of the recent mean volume, persisting the last 1440 volumes into
`historical_volumes`.  `np.std`'s square root is the argument `sqrtQ`. -/
def calculate_volume_anomaly (sqrtQ : ℚ → ℚ) (st : FEState)
    (ohlcv_history : List Candle) (stablecoin : String) : ℚ × FEState :=
  if ohlcv_history.length < 10 then (0, st)
  else
    let volumes := ohlcv_history.map (fun c => c.volume_traded)
    let hv := insertKey st.historical_volumes stablecoin (volumes.drop (volumes.length - 1440))
    let st1 := { st with historical_volumes := hv }
    let current_volume :=
      if 60 ≤ volumes.length then listMean (volumes.drop (volumes.length - 60))
      else listMean volumes
    let mean_volume := listMean volumes
    let std_volume := sqrtQ (popVar volumes)
    if std_volume = 0 then (0, st1)
    else (roundq ((current_volume - mean_volume) / std_volume) 4, st1)

/-- Model of `calculate_bid_ask_spread(orderbook)`. -/
def calculate_bid_ask_spread (orderbook : FEBook) : ℚ :=
  if orderbook.bids = [] ∨ orderbook.asks = [] then 0
  else
    let best_bid := ((orderbook.bids.head?).map (fun b => b.price)).getD 0
    let best_ask := ((orderbook.asks.head?).map (fun a => a.price)).getD 0
    if best_bid = 0 ∨ best_ask = 0 then 0
    else roundq ((best_ask - best_bid) / ((best_bid + best_ask) / 2)) 6

/-- Model of `compute_anomaly_features(current_price, orderbook,
ohlcv_history, multi_exchange_prices, stablecoin)`, with the state updates
in source order: `previous_liquidity` is overwritten after the liquidity
delta is computed, `historical_volumes` inside the z-score step, and
`previous_price` after the price delta is computed. -/
def compute_anomaly_features (sqrtQ : ℚ → ℚ) (st : FEState)
    (current_price : ℚ) (orderbook : FEBook) (ohlcv_history : List Candle)
    (multi_exchange_prices : List (String × Option ℚ)) (stablecoin : String) :
    AnomalyFeatures × FEState :=
  let liquidity_depth := calculate_liquidity_score orderbook 10
  let liquidity_change_pct :=
    match lookupKey st.previous_liquidity stablecoin with
    | some prev => if 0 < prev then (liquidity_depth - prev) / prev else 0
    | none => 0
  let pl := insertKey st.previous_liquidity stablecoin liquidity_depth
  let st1 := { st with previous_liquidity := pl }
  let vz := calculate_volume_anomaly sqrtQ st1 ohlcv_history stablecoin
  let price_change_pct :=
    match lookupKey vz.2.previous_price stablecoin with
    | some prev_price => if 0 < prev_price then (current_price - prev_price) / prev_price else 0
    | none => 0
  let pp := insertKey vz.2.previous_price stablecoin current_price
  let st3 := { vz.2 with previous_price := pp }
  ({ liquidity_depth := liquidity_depth
     liquidity_change_pct := liquidity_change_pct
     volume_zscore := vz.1
     price_change_pct := price_change_pct
     orderbook_imbalance := calculate_orderbook_imbalance orderbook
     cross_exchange_spread := calculate_cross_exchange_spread multi_exchange_prices
     volatility_spike := calculate_volatility sqrtQ ohlcv_history
     bid_ask_spread := calculate_bid_ask_spread orderbook }, st3)

/-- Run of a sequence of `calculate_deviation_duration` evaluations for one
asset; each item of `evals` is a `(now, peg_deviation)` pair.  Returns the
list of returned durations. -/
def runDevDuration (st : FEState) (stablecoin : String) (threshold : ℚ) :
    List (ℚ × ℚ) → List ℚ
  | [] => []
  | e :: rest =>
    let r := calculate_deviation_duration st e.2 stablecoin threshold e.1
    r.1 :: runDevDuration r.2 stablecoin threshold rest

end FeatEng

namespace AnomM

/-- Alert entry; the human-readable `message` string built by f-string
interpolation is omitted. -/
structure Alert where
  type : String
  severity : String
deriving DecidableEq

/-- Model of `AnomalyDetectionModel._identify_anomaly_types(features)`:
the fixed threshold table, appending alerts in source order. -/
def identify_anomaly_types (f : AnomalyFeatures) : List Alert :=
  (if f.liquidity_change_pct < -(2/10) then [Alert.mk "liquidity_drop" "High"] else []) ++
  (if f.liquidity_depth < 3/10 then
    [Alert.mk "low_liquidity" (if f.liquidity_depth < 15/100 then "High" else "Medium")]
   else []) ++
  (if 3 < |f.volume_zscore| then
    [Alert.mk "volume_spike" (if 5 < |f.volume_zscore| then "High" else "Medium")]
   else []) ++
  (if 4 < |f.volume_zscore| ∧ 1/100 < |f.price_change_pct| then
    [Alert.mk "whale_activity" "High"]
   else []) ++
  (if 2/100 < |f.price_change_pct| then
    [Alert.mk "unusual_price_movement"
      (if 5/100 < |f.price_change_pct| then "High" else "Medium")]
   else []) ++
  (if 7/10 < |f.orderbook_imbalance| then [Alert.mk "orderbook_imbalance" "Medium"] else []) ++
  (if 1/100 < f.cross_exchange_spread then
    [Alert.mk "wide_spread" (if f.cross_exchange_spread < 2/100 then "Medium" else "High")]
   else []) ++
  (if 5/100 < f.volatility_spike then
    [Alert.mk "volatility_spike" (if 1/10 < f.volatility_spike then "High" else "Medium")]
   else []) ++
  (if 5/1000 < f.bid_ask_spread then [Alert.mk "spread_widening" "Medium"] else [])

/-- Result record of `detect_anomaly` / `_fallback_detection`
(the wall-clock `timestamp` string is omitted). -/
structure DetectionResult where
  anomaly_score : ℚ
  is_anomaly : Bool
  severity : String
  alerts : List Alert
  confidence : ℚ
deriving DecidableEq

/-- Model of `AnomalyDetectionModel._fallback_detection(features)`: the
rule-based path used when no model is loaded. -/
def fallback_detection (f : AnomalyFeatures) : DetectionResult :=
  let c1 := decide (f.liquidity_depth < 3/10)
  let c2 := decide (3 < |f.volume_zscore|)
  let c3 := decide (2/100 < |f.price_change_pct|)
  let alerts :=
    (if c1 then [Alert.mk "low_liquidity" "High"] else []) ++
    (if c2 then [Alert.mk "volume_spike" "Medium"] else []) ++
    (if c3 then [Alert.mk "price_movement" "High"] else [])
  let anomaly_count : ℕ := (if c1 then 1 else 0) + (if c2 then 1 else 0) + (if c3 then 1 else 0)
  let is_anomaly := decide (2 ≤ anomaly_count)
  { anomaly_score := if is_anomaly then -(1/2) else 0
    is_anomaly := is_anomaly
    severity :=
      if 3 ≤ anomaly_count then "High"
      else if 2 ≤ anomaly_count then "Medium"
      else "Low"
    alerts := alerts
    confidence := 6/10 }

/-- Severity band of the scorer-backed path, from `severity_thresholds`:
score below `-0.7` is High, below `-0.5` Medium, below `-0.3` Low, else
Normal. -/
def severity_from_score (anomaly_score : ℚ) : String :=
  if anomaly_score < -(7/10) then "High"
  else if anomaly_score < -(1/2) then "Medium"
  else if anomaly_score < -(3/10) then "Low"
  else "Normal"

/-- External statistical scorer consumed through a narrow interface: the
composition of `scaler.transform`, `model.predict` (here the Bool
`prediction == -1`) and `model.score_samples` on one sample.  The trained
StandardScaler / IsolationForest internals are out of scope. -/
def Scorer : Type := AnomalyFeatures → Bool × ℚ

/-- Model of `AnomalyDetectionModel.detect_anomaly(features)`: with no model
loaded it defers to `_fallback_detection`; otherwise the scorer supplies
`is_anomaly` and `anomaly_score`, severity comes from the score bands, and
the alert list from `_identify_anomaly_types`. -/
def detect_anomaly (scorer : Option Scorer) (f : AnomalyFeatures) : DetectionResult :=
  match scorer with
  | none => fallback_detection f
  | some s =>
    let pr := s f
    { anomaly_score := pr.2
      is_anomaly := pr.1
      severity := severity_from_score pr.2
      alerts := identify_anomaly_types f
      confidence := min (|pr.2| / 2) 1 }

end AnomM

namespace DevCalc

/-- Model of Python's `str.lower()` as used on the asset symbol, written
over the character list so that it evaluates by plain reduction. -/
def strLower (s : String) : String := String.mk (s.data.map Char.toLower)

/-- The CoinGecko symbol table of `fetch_historical_prices`. -/
def coingecko_ids : List (String × String) :=
  [("usdt", "tether"), ("usdc", "usd-coin"), ("dai", "dai"), ("busd", "binance-usd"),
   ("frax", "frax"), ("tusd", "true-usd"), ("usdd", "usdd")]

/-- Historical price point `{timestamp, price}`. -/
structure PricePoint where
  timestamp : ℤ
  price : ℚ
deriving DecidableEq

/-- Outcome of the CoinGecko HTTP call: `ok` is true when the request
succeeded with status 200, and `prices` is the parsed `"prices"` array. -/
structure NetEnv where
  ok : Bool
  prices : List PricePoint
deriving DecidableEq

/-- Which arm of `fetch_historical_prices` produced the data. -/
inductive PriceSource
  | network
  | synthetic
deriving DecidableEq

/-- Model of `_generate_synthetic_prices(stablecoin, days)`: one point per
hour, `days * 24` points with timestamps walking up to `now` in 1-hour
steps.  The price values come from a seeded Mersenne-Twister random walk and
are abstracted as the argument `g`. -/
def generate_synthetic_prices (g : ℕ → ℚ) (now : ℤ) (days : ℕ) : List PricePoint :=
  (List.range (days * 24)).map
    (fun i => PricePoint.mk (now - ((days * 24 : ℕ) - (i : ℕ)) * 3600000) (g i))

/-- Model of `fetch_historical_prices(stablecoin, days)`.  For a symbol not
in `coingecko_ids` the body raises `ValueError("Unsupported stablecoin")`
inside the `try` block, and the blanket `except Exception` handler of the
same function swallows it, printing and falling through to the synthetic
generator — exactly as for a failed or non-200 network call.  The `.1`
marker records which arm produced the data. -/
def fetch_historical_prices (net : NetEnv) (g : ℕ → ℚ) (now : ℤ)
    (stablecoin : String) (days : ℕ) : PriceSource × List PricePoint :=
  match FeatEng.lookupKey coingecko_ids (strLower stablecoin) with
  | none => (PriceSource.synthetic, generate_synthetic_prices g now days)
  | some _ =>
    if net.ok then (PriceSource.network, net.prices)
    else (PriceSource.synthetic, generate_synthetic_prices g now days)

/-- Enriched deviation point of `calculate_ml_deviation`. -/
structure DevPoint where
  timestamp : ℤ
  price : ℚ
  deviation : ℚ
  ml_score : Option ℚ
deriving DecidableEq

/-- Model of `calculate_ml_deviation(prices)`: per-point deviation
`|price - 1.0| * 100` rounded to 4 decimals; `ml_score` is the placeholder
`-0.1` when an anomaly model is attached and `i > 0`, else `None`. -/
def calculate_ml_deviation (anomaly_model_present : Bool)
    (prices : List PricePoint) : List DevPoint :=
  prices.enum.map (fun p =>
    DevPoint.mk p.2.timestamp p.2.price (roundq (|p.2.price - 1| * 100) 4)
      (if anomaly_model_present ∧ 0 < p.1 then some (-(1/10)) else none))

/-- Aggregate metrics record of `calculate_metrics`. -/
structure Metrics where
  maxDeviation : ℚ
  averageDeviation : ℚ
  minDeviation : ℚ
  volatility : ℚ
  stability : ℚ
deriving DecidableEq

/-- Model of `calculate_metrics(deviation_data)`;  `np.std`'s square root is
the argument `sqrtQ`. -/
def calculate_metrics (sqrtQ : ℚ → ℚ) (deviation_data : List DevPoint) : Metrics :=
  match deviation_data with
  | [] => Metrics.mk 0 0 0 0 100
  | d :: rest =>
    let deviations := (d :: rest).map (fun p => p.deviation)
    let prices := (d :: rest).map (fun p => p.price)
    let max_dev := rest.foldl (fun acc p => max acc p.deviation) d.deviation
    let min_dev := rest.foldl (fun acc p => min acc p.deviation) d.deviation
    let avg_dev := FeatEng.listMean deviations
    let volatility := sqrtQ (FeatEng.popVar prices) * 100
    let stability := max 0 (100 - avg_dev * 10)
    Metrics.mk (roundq max_dev 4) (roundq avg_dev 4) (roundq min_dev 4)
      (roundq volatility 4) (roundq stability 2)

/-- Result record of `compute_deviation_metrics` (the wall-clock ISO
`timestamp` string is omitted). -/
structure DevResult where
  id : String
  period : String
  data : List DevPoint
  metrics : Metrics
  data_points : ℕ
  ml_enabled : Bool
deriving DecidableEq

/-- In-memory cache state of `MLDeviationCalculator`. -/
structure CacheState where
  cache : List (String × DevResult)
  cache_timestamps : List (String × ℚ)
deriving DecidableEq

/-- Empty cache as built by `__init__`. -/
def CacheState.init : CacheState := CacheState.mk [] []

/-- The 300-second TTL (`self.cache_ttl`). -/
def cache_ttl : ℚ := 300

/-- Model of `_is_cache_valid(key)`: key present and age strictly below the
TTL, with a missing timestamp defaulting to `0`. -/
def is_cache_valid (st : CacheState) (now : ℚ) (key : String) : Bool :=
  match FeatEng.lookupKey st.cache key with
  | none => false
  | some _ =>
    decide (now - ((FeatEng.lookupKey st.cache_timestamps key).getD 0) < cache_ttl)

/-- Model of `_get_from_cache(key)`.  (The caller tests the returned dict
for truthiness; a stored result dict is never empty, so `Option` is
faithful.) -/
def get_from_cache (st : CacheState) (now : ℚ) (key : String) : Option DevResult :=
  if is_cache_valid st now key then FeatEng.lookupKey st.cache key else none

/-- Model of `_set_cache(key, data)`. -/
def set_cache (st : CacheState) (now : ℚ) (key : String) (data : DevResult) : CacheState :=
  CacheState.mk (FeatEng.insertKey st.cache key data)
    (FeatEng.insertKey st.cache_timestamps key now)

/-- The fetch-and-compute body of `compute_deviation_metrics`, below the
cache check: fetch (with its synthetic fallback), the
`if not prices: raise ValueError` guard, the deviation math and the result
record.  `amp` is whether an anomaly model is attached (`ml_enabled`). -/
def deviation_body (net : NetEnv) (g : ℕ → ℚ) (sqrtQ : ℚ → ℚ) (amp : Bool)
    (tsNow : ℤ) (stablecoin : String) (period_days : ℕ) : Except String DevResult :=
  let pr := fetch_historical_prices net g tsNow stablecoin period_days
  if pr.2 = [] then Except.error ("Failed to fetch price data for " ++ stablecoin)
  else
    let deviation_data := calculate_ml_deviation amp pr.2
    Except.ok
      { id := stablecoin
        period := toString period_days ++ "d"
        data := deviation_data
        metrics := calculate_metrics sqrtQ deviation_data
        data_points := deviation_data.length
        ml_enabled := amp }

/-- Model of `compute_deviation_metrics(stablecoin, period_days)`.  The
`ℕ` component counts how many times the fetch-and-compute step ran during
this call (`0` on a cache hit, `1` otherwise), corresponding to one
invocation of the spec's `compute_fn`. -/
def compute_deviation_metrics (net : NetEnv) (g : ℕ → ℚ) (sqrtQ : ℚ → ℚ)
    (amp : Bool) (tsNow : ℤ) (st : CacheState) (now : ℚ)
    (stablecoin : String) (period_days : ℕ) :
    Except String (DevResult × CacheState × ℕ) :=
  let cache_key := stablecoin ++ "_" ++ toString period_days ++ "d"
  match get_from_cache st now cache_key with
  | some cached => Except.ok (cached, st, 0)
  | none =>
    match deviation_body net g sqrtQ amp tsNow stablecoin period_days with
    | Except.error e => Except.error e
    | Except.ok result => Except.ok (result, set_cache st now cache_key result, 1)

end DevCalc

/-- The literal crisis feature vector of the spec's testable-properties
scenario (also `crisis_features` in the source's self-test). -/
def crisisVec : AnomalyFeatures :=
  { liquidity_depth := 15/100
    liquidity_change_pct := -(35/100)
    volume_zscore := 11/2
    price_change_pct := 45/1000
    orderbook_imbalance := -(3/4)
    cross_exchange_spread := 15/1000
    volatility_spike := 8/100
    bid_ask_spread := 8/1000 }

/-- Calm feature vector triggering none of the rule thresholds. -/
def calmVec : AnomalyFeatures :=
  { liquidity_depth := 1
    liquidity_change_pct := 0
    volume_zscore := 0
    price_change_pct := 0
    orderbook_imbalance := 0
    cross_exchange_spread := 0
    volatility_spike := 0
    bid_ask_spread := 0 }

/-- Number of the three fallback rules (low liquidity, volume spike, large
price change) a feature vector triggers. -/
def fallbackCount (f : AnomalyFeatures) : ℕ :=
  (if f.liquidity_depth < 3/10 then 1 else 0) +
  (if 3 < |f.volume_zscore| then 1 else 0) +
  (if 2/100 < |f.price_change_pct| then 1 else 0)

/-- Liquidity score exactly as the spec's §4.3 item 4 words it: top-N
`volume_usd` sums over the $10M baseline, `0.1` sentinel on an empty side
(stated without the source's final rounding).  Defined only to compare the
spec's formula against the code's `calculate_liquidity_score`. -/
def liquidity_score_specform (orderbook : FeatEng.FEBook) (depth_levels : ℕ) : ℚ :=
  if orderbook.bids = [] ∨ orderbook.asks = [] then 1/10
  else
    (((orderbook.bids.take depth_levels).map (fun b => b.volume_usd)).sum +
     ((orderbook.asks.take depth_levels).map (fun a => a.volume_usd)).sum) / 10000000

/-- Order book on which the code's `volume`-based liquidity score and the
spec's `volume_usd`-based formula differ (price 2, so `volume_usd` is twice
`volume`). -/
def c4Book : FeatEng.FEBook :=
  { bids := [FeatEng.FELevel.mk 2 10000 20000]
    asks := [FeatEng.FELevel.mk 2 10000 20000] }

/-- Raw book whose single bid level has a non-positive price. -/
def c2Book : Agg.RawBook :=
  { timestamp := none
    bids := some [Agg.InLevel.mk (-1) 2 none]
    asks := none }

/-- Sum of `volume_usd` over flattened raw levels. -/
def sumVolFlat (ls : List Agg.FlatLevel) : ℚ := (ls.map (fun l => l.volume_usd)).sum

/-- Sum of `volume_usd` over merged price levels. -/
def sumVolP (ls : List Agg.PLevel) : ℚ := (ls.map (fun l => l.volume_usd)).sum

theorem roundHalfEven_ge_floor (x : ℚ) : Int.floor x ≤ roundHalfEven x := by
  unfold roundHalfEven
  dsimp only
  split_ifs <;> omega

theorem roundHalfEven_le_floor_add_one (x : ℚ) :
    roundHalfEven x ≤ Int.floor x + 1 := by
  unfold roundHalfEven
  dsimp only
  split_ifs <;> omega

theorem roundHalfEven_mono {x y : ℚ} (h : x ≤ y) :
    roundHalfEven x ≤ roundHalfEven y := by
  rcases lt_or_eq_of_le (Int.floor_le_floor h) with hf | hf
  · calc roundHalfEven x ≤ Int.floor x + 1 := roundHalfEven_le_floor_add_one x
      _ ≤ Int.floor y := by omega
      _ ≤ roundHalfEven y := roundHalfEven_ge_floor y
  · unfold roundHalfEven
    dsimp only
    rw [hf]
    have hfr : x - (Int.floor y : ℚ) ≤ y - (Int.floor y : ℚ) := by linarith
    split_ifs <;> first | omega | linarith

theorem roundHalfEven_add_two (x : ℚ) :
    roundHalfEven (x + 2) = roundHalfEven x + 2 := by
  unfold roundHalfEven
  dsimp only
  have hfl : Int.floor (x + 2) = Int.floor x + 2 := by
    have := Int.floor_add_int x (2 : ℤ)
    push_cast at this
    exact this
  rw [hfl]
  have hfr : x + 2 - ((Int.floor x + 2 : ℤ) : ℚ) = x - (Int.floor x : ℚ) := by
    push_cast; ring
  rw [hfr]
  split_ifs <;> omega

theorem roundHalfEven_zero : roundHalfEven 0 = 0 := by
  unfold roundHalfEven
  norm_num

theorem roundq_zero (n : ℕ) : roundq 0 n = 0 := by
  unfold roundq
  rw [zero_mul, roundHalfEven_zero]
  simp

theorem roundq_mono {x y : ℚ} (n : ℕ) (h : x ≤ y) : roundq x n ≤ roundq y n := by
  unfold roundq
  have h10 : (0:ℚ) < 10 ^ n := by positivity
  have := roundHalfEven_mono (mul_le_mul_of_nonneg_right h (le_of_lt h10))
  exact div_le_div_of_nonneg_right (by exact_mod_cast this) h10.le

theorem roundq_nonneg {x : ℚ} (n : ℕ) (h : 0 ≤ x) : 0 ≤ roundq x n := by
  have := roundq_mono n h
  rwa [roundq_zero] at this

/-- Strict growth of two-decimal rounding across a gap of two grid steps.
Rounding half to even can collapse one grid step (for example `1.5` and
`2.5` both round to `2`), but never two. -/
theorem roundq_two_strict {x y : ℚ} (h : x + 2 / 100 ≤ y) :
    roundq x 2 < roundq y 2 := by
  unfold roundq
  have h10 : (0:ℚ) < 10 ^ 2 := by norm_num
  have hx2 : x * 10 ^ 2 + 2 ≤ y * 10 ^ 2 := by nlinarith
  have hle : roundHalfEven (x * 10 ^ 2) + 2 ≤ roundHalfEven (y * 10 ^ 2) := by
    have := roundHalfEven_mono hx2
    rwa [roundHalfEven_add_two] at this
  have hlt : roundHalfEven (x * 10 ^ 2) < roundHalfEven (y * 10 ^ 2) := by omega
  have hq : (roundHalfEven (x * 10 ^ 2) : ℚ) < (roundHalfEven (y * 10 ^ 2) : ℚ) := by
    exact_mod_cast hlt
  exact div_lt_div_of_pos_right hq h10

/-- Evaluation of the rule table at the crisis vector. -/
theorem identify_crisis_eval :
    AnomM.identify_anomaly_types crisisVec =
      [AnomM.Alert.mk "liquidity_drop" "High",
       AnomM.Alert.mk "low_liquidity" "Medium",
       AnomM.Alert.mk "volume_spike" "High",
       AnomM.Alert.mk "whale_activity" "High",
       AnomM.Alert.mk "unusual_price_movement" "Medium",
       AnomM.Alert.mk "orderbook_imbalance" "Medium",
       AnomM.Alert.mk "wide_spread" "Medium",
       AnomM.Alert.mk "volatility_spike" "Medium",
       AnomM.Alert.mk "spread_widening" "Medium"] := by
  unfold AnomM.identify_anomaly_types crisisVec
  norm_num [abs, max_def]

/-- Evaluation of the fallback path at the crisis vector. -/
theorem fallback_crisis_eval :
    AnomM.fallback_detection crisisVec =
      AnomM.DetectionResult.mk (-(1/2)) true "High"
        [AnomM.Alert.mk "low_liquidity" "High",
         AnomM.Alert.mk "volume_spike" "Medium",
         AnomM.Alert.mk "price_movement" "High"] (6/10) := by
  unfold AnomM.fallback_detection crisisVec
  norm_num [abs, max_def]

/-- Evaluation of the fallback path at the calm vector. -/
theorem fallback_calm_eval :
    AnomM.fallback_detection calmVec =
      AnomM.DetectionResult.mk 0 false "Low" [] (6/10) := by
  unfold AnomM.fallback_detection calmVec
  norm_num [abs, max_def]

/-- C1 counterexample: at the literal crisis vector the claim cannot hold on
either path of the detector — the rule identification used by the
scorer-backed path grades `low_liquidity` as Medium (0.15 is not strictly
below the 0.15 High cutoff), and the no-scorer fallback path emits only 3
alerts, fewer than the claimed 6. -/
theorem C1_counterexample :
    ((AnomM.identify_anomaly_types crisisVec).filter
      (fun a => decide (a.type = "low_liquidity"))) =
        [AnomM.Alert.mk "low_liquidity" "Medium"] ∧
    (AnomM.fallback_detection crisisVec).alerts.length = 3 := by
  rw [identify_crisis_eval, fallback_crisis_eval]
  constructor
  · rfl
  · rfl

/-- C1 amended: at the literal crisis vector, the scorer-backed rule
identification yields 9 alerts including `liquidity_drop` (High),
`low_liquidity` (Medium), `volume_spike` (High) and `whale_activity`
(High); the no-scorer fallback path yields `is_anomaly = true` with exactly
the 3 alerts `low_liquidity` (High), `volume_spike` (Medium),
`price_movement` (High). -/
theorem C1_amended :
    (AnomM.identify_anomaly_types crisisVec).length = 9 ∧
    AnomM.Alert.mk "liquidity_drop" "High" ∈ AnomM.identify_anomaly_types crisisVec ∧
    AnomM.Alert.mk "low_liquidity" "Medium" ∈ AnomM.identify_anomaly_types crisisVec ∧
    AnomM.Alert.mk "volume_spike" "High" ∈ AnomM.identify_anomaly_types crisisVec ∧
    AnomM.Alert.mk "whale_activity" "High" ∈ AnomM.identify_anomaly_types crisisVec ∧
    (AnomM.detect_anomaly none crisisVec).is_anomaly = true ∧
    (AnomM.detect_anomaly none crisisVec).alerts =
      [AnomM.Alert.mk "low_liquidity" "High", AnomM.Alert.mk "volume_spike" "Medium",
       AnomM.Alert.mk "price_movement" "High"] := by
  have hd : AnomM.detect_anomaly none crisisVec = AnomM.fallback_detection crisisVec := rfl
  rw [identify_crisis_eval, hd, fallback_crisis_eval]
  refine ⟨rfl, ?_, ?_, ?_, ?_, rfl, rfl⟩ <;> simp

/-- C2 counterexample: a bid level with price `-1` passes through
`convert_volume_to_usd` untouched — no `InvalidLevel` failure exists in the
code, and the output contains the non-positive-price level. -/
theorem C2_counterexample :
    (Agg.convert_volume_to_usd c2Book 1 "bids").bids =
      some [Agg.UsdLevel.mk (-1) 2 (-2)] ∧
    ∃ l ∈ ((Agg.convert_volume_to_usd c2Book 1 "bids").bids.getD []), l.price ≤ 0 := by
  have h : (Agg.convert_volume_to_usd c2Book 1 "bids").bids =
      some [Agg.UsdLevel.mk (-1) 2 (-2)] := by
    unfold Agg.convert_volume_to_usd c2Book
    norm_num
  refine ⟨h, Agg.UsdLevel.mk (-1) 2 (-2), ?_, by norm_num⟩
  rw [h]
  simp

/-- C2 amended: `convert_volume_to_usd` performs no validation at all: each
requested side present in the input is returned in full, every level
converted with `volume_usd = volume * price` (its own level price), whether
or not any price is `≤ 0`; a side that is not requested is absent from the
result. -/
theorem C2_amended (orderbook : Agg.RawBook) (current_price : ℚ) :
    (Agg.convert_volume_to_usd orderbook current_price "both").bids =
      orderbook.bids.map
        (List.map (fun b => Agg.UsdLevel.mk b.price b.volume (b.volume * b.price))) ∧
    (Agg.convert_volume_to_usd orderbook current_price "both").asks =
      orderbook.asks.map
        (List.map (fun a => Agg.UsdLevel.mk a.price a.volume (a.volume * a.price))) ∧
    (Agg.convert_volume_to_usd orderbook current_price "bids").asks = none ∧
    (Agg.convert_volume_to_usd orderbook current_price "asks").bids = none := by
  refine ⟨?_, ?_, ?_, ?_⟩ <;> simp [Agg.convert_volume_to_usd]

/-- C9 counterexample: severity is not the maximum severity of the triggered
alerts.  With no alert triggered the fallback path reports "Low", not
"Normal"; and a scorer returning score `0` makes the scorer-backed path
report "Normal" even though the crisis vector triggers High alerts. -/
theorem C9_counterexample :
    (AnomM.fallback_detection calmVec).alerts = [] ∧
    (AnomM.fallback_detection calmVec).severity = "Low" ∧
    (AnomM.detect_anomaly (some (fun _ => (false, 0))) crisisVec).severity = "Normal" ∧
    AnomM.Alert.mk "whale_activity" "High" ∈
      (AnomM.detect_anomaly (some (fun _ => (false, 0))) crisisVec).alerts := by
  have hs : (AnomM.detect_anomaly (some (fun _ => (false, 0))) crisisVec).severity =
      AnomM.severity_from_score 0 := rfl
  have hn : AnomM.severity_from_score 0 = "Normal" := by
    unfold AnomM.severity_from_score
    norm_num
  have ha : (AnomM.detect_anomaly (some (fun _ => (false, 0))) crisisVec).alerts =
      AnomM.identify_anomaly_types crisisVec := rfl
  rw [fallback_calm_eval, hs, hn, ha, identify_crisis_eval]
  refine ⟨rfl, rfl, rfl, ?_⟩
  simp

/-- C9 amended: overall severity never looks at the triggered alerts.  On
the scorer-backed path it is a function of the anomaly score alone through
the fixed bands (below −0.7 High, below −0.5 Medium, below −0.3 Low, else
Normal); on the no-scorer fallback path it is High when all three fallback
rules trigger, Medium when exactly two do, and Low otherwise — including
when no alert triggers at all. -/
theorem C9_amended (s : AnomM.Scorer) (f : AnomalyFeatures) :
    (AnomM.detect_anomaly (some s) f).severity = AnomM.severity_from_score (s f).2 ∧
    (AnomM.detect_anomaly none f).severity =
      (if 3 ≤ fallbackCount f then "High"
       else if 2 ≤ fallbackCount f then "Medium" else "Low") := by
  constructor
  · rfl
  · show (AnomM.fallback_detection f).severity = _
    unfold AnomM.fallback_detection fallbackCount
    simp only [decide_eq_true_eq]

theorem roundHalfEven_intCast (m : ℤ) : roundHalfEven (m : ℚ) = m := by
  unfold roundHalfEven
  simp [Int.floor_intCast]

/-- Evaluation rule for `roundq` when the scaled value is an exact integer. -/
theorem roundq_eval {x : ℚ} {n : ℕ} {m : ℤ} (h : x * 10 ^ n = (m : ℚ)) :
    roundq x n = (m : ℚ) / 10 ^ n := by
  unfold roundq
  rw [h, roundHalfEven_intCast]

/-- C4 counterexample: the code sums the raw `volume` field, not
`volume_usd`.  On a book whose only levels have price 2 (so `volume_usd`
is twice `volume`), the code returns 0.002 while the claimed
`volume_usd`-based formula gives 0.004. -/
theorem C4_counterexample :
    FeatEng.calculate_liquidity_score c4Book 10 = 2/1000 ∧
    liquidity_score_specform c4Book 10 = 4/1000 ∧
    (2/1000 : ℚ) ≠ 4/1000 := by
  refine ⟨?_, ?_, by norm_num⟩
  · unfold FeatEng.calculate_liquidity_score c4Book
    rw [if_neg (by simp)]
    simp only [List.take, List.map, List.sum_cons, List.sum_nil]
    rw [roundq_eval (m := 20) (by norm_num)]
    norm_num
  · unfold liquidity_score_specform c4Book
    rw [if_neg (by simp)]
    norm_num

/-- C4 amended: for a book with non-empty bids and asks, `liquidity_score`
is the sum of the top-N bid `volume` plus top-N ask `volume` fields (the
base-asset volumes, not `volume_usd`), divided by 10,000,000 and rounded to
4 decimal places; the sentinel 0.1 is returned when either side is empty. -/
theorem C4_amended (orderbook : FeatEng.FEBook) (depth_levels : ℕ) :
    (orderbook.bids ≠ [] → orderbook.asks ≠ [] →
      FeatEng.calculate_liquidity_score orderbook depth_levels =
        roundq ((((orderbook.bids.take depth_levels).map (fun b => b.volume)).sum +
                 ((orderbook.asks.take depth_levels).map (fun a => a.volume)).sum)
                / 10000000) 4) ∧
    (orderbook.bids = [] ∨ orderbook.asks = [] →
      FeatEng.calculate_liquidity_score orderbook depth_levels = 1/10) := by
  constructor
  · intro h1 h2
    unfold FeatEng.calculate_liquidity_score
    rw [if_neg (by simp [h1, h2])]
  · intro h
    unfold FeatEng.calculate_liquidity_score
    rw [if_pos h]

/-- Witness for C4: the amended formula applied at the concrete book. -/
theorem C4_witness :
    FeatEng.calculate_liquidity_score c4Book 10 =
      roundq ((((c4Book.bids.take 10).map (fun b => b.volume)).sum +
               ((c4Book.asks.take 10).map (fun a => a.volume)).sum) / 10000000) 4 :=
  (C4_amended c4Book 10).1 (by simp [c4Book]) (by simp [c4Book])

theorem lookupKey_insertKey_self {α : Type} (m : List (String × α)) (k : String) (v : α) :
    FeatEng.lookupKey (FeatEng.insertKey m k v) k = some v := by
  induction m with
  | nil => simp [FeatEng.insertKey, FeatEng.lookupKey]
  | cons p rest ih =>
    by_cases h : p.1 = k
    · simp [FeatEng.insertKey, FeatEng.lookupKey, h]
    · simp [FeatEng.insertKey, FeatEng.lookupKey, h, ih]

theorem lookupKey_eraseKey_self {α : Type} (m : List (String × α)) (k : String) :
    FeatEng.lookupKey (FeatEng.eraseKey m k) k = none := by
  induction m with
  | nil => simp [FeatEng.eraseKey, FeatEng.lookupKey]
  | cons p rest ih =>
    by_cases h : p.1 = k
    · simp [FeatEng.eraseKey, h, ih]
    · simp [FeatEng.eraseKey, FeatEng.lookupKey, h, ih]

/-- State-preservation of `calculate_volume_anomaly`: it only writes
`historical_volumes`. -/
theorem cva_preserves (sqrtQ : ℚ → ℚ) (st1 : FeatEng.FEState)
    (ohlcv_history : List FeatEng.Candle) (stablecoin : String) :
    (FeatEng.calculate_volume_anomaly sqrtQ st1 ohlcv_history stablecoin).2.previous_liquidity
      = st1.previous_liquidity ∧
    (FeatEng.calculate_volume_anomaly sqrtQ st1 ohlcv_history stablecoin).2.previous_price
      = st1.previous_price := by
  unfold FeatEng.calculate_volume_anomaly
  dsimp only
  split_ifs <;> simp

/-- C10: the division guards of `compute_anomaly_features` are total.
Whenever the stored previous liquidity is absent *or* non-positive,
`liquidity_change_pct` is 0; likewise `price_change_pct` for the stored
previous price; and in every case the previous-value slots are overwritten
with the current liquidity score and current price, so neither percentage
ever divides by a non-positive stored value. -/
theorem C10_division_guards (sqrtQ : ℚ → ℚ) (st : FeatEng.FEState)
    (current_price : ℚ) (orderbook : FeatEng.FEBook)
    (ohlcv_history : List FeatEng.Candle)
    (multi_exchange_prices : List (String × Option ℚ)) (stablecoin : String)
    (hliq : ∀ p, FeatEng.lookupKey st.previous_liquidity stablecoin = some p → p ≤ 0)
    (hpr : ∀ p, FeatEng.lookupKey st.previous_price stablecoin = some p → p ≤ 0) :
    (FeatEng.compute_anomaly_features sqrtQ st current_price orderbook
        ohlcv_history multi_exchange_prices stablecoin).1.liquidity_change_pct = 0 ∧
    (FeatEng.compute_anomaly_features sqrtQ st current_price orderbook
        ohlcv_history multi_exchange_prices stablecoin).1.price_change_pct = 0 ∧
    FeatEng.lookupKey (FeatEng.compute_anomaly_features sqrtQ st current_price orderbook
        ohlcv_history multi_exchange_prices stablecoin).2.previous_liquidity stablecoin =
      some (FeatEng.calculate_liquidity_score orderbook 10) ∧
    FeatEng.lookupKey (FeatEng.compute_anomaly_features sqrtQ st current_price orderbook
        ohlcv_history multi_exchange_prices stablecoin).2.previous_price stablecoin =
      some current_price := by
  have hmidP :
      (FeatEng.calculate_volume_anomaly sqrtQ
        (FeatEng.FEState.mk st.deviation_start_time st.historical_volumes
          (FeatEng.insertKey st.previous_liquidity stablecoin
            (FeatEng.calculate_liquidity_score orderbook 10))
          st.previous_price)
        ohlcv_history stablecoin).2.previous_price = st.previous_price :=
    (cva_preserves _ _ _ _).2
  have hmidL :
      (FeatEng.calculate_volume_anomaly sqrtQ
        (FeatEng.FEState.mk st.deviation_start_time st.historical_volumes
          (FeatEng.insertKey st.previous_liquidity stablecoin
            (FeatEng.calculate_liquidity_score orderbook 10))
          st.previous_price)
        ohlcv_history stablecoin).2.previous_liquidity =
      FeatEng.insertKey st.previous_liquidity stablecoin
        (FeatEng.calculate_liquidity_score orderbook 10) :=
    (cva_preserves _ _ _ _).1
  unfold FeatEng.compute_anomaly_features
  dsimp only
  refine ⟨?_, ?_, ?_, ?_⟩
  · rcases hl : FeatEng.lookupKey st.previous_liquidity stablecoin with _ | p
    · simp [hl]
    · simp [hl, not_lt_of_le (hliq p hl)]
  · rw [hmidP]
    rcases hp2 : FeatEng.lookupKey st.previous_price stablecoin with _ | p
    · simp [hp2]
    · simp [hp2, not_lt_of_le (hpr p hp2)]
  · rw [hmidL]
    exact lookupKey_insertKey_self _ _ _
  · rw [hmidP] -- no-op if not needed
    exact lookupKey_insertKey_self _ _ _

/-- Witness for C10: previous liquidity stored as `0` (non-positive) and no
previous price stored; both percentages are 0 and both slots get
overwritten. -/
theorem C10_witness :
    (FeatEng.compute_anomaly_features (fun _ => 0)
        (FeatEng.FEState.mk [] [] [("usdt", 0)] []) 1 (FeatEng.FEBook.mk [] [])
        [] [] "usdt").1.liquidity_change_pct = 0 ∧
    (FeatEng.compute_anomaly_features (fun _ => 0)
        (FeatEng.FEState.mk [] [] [("usdt", 0)] []) 1 (FeatEng.FEBook.mk [] [])
        [] [] "usdt").1.price_change_pct = 0 ∧
    FeatEng.lookupKey (FeatEng.compute_anomaly_features (fun _ => 0)
        (FeatEng.FEState.mk [] [] [("usdt", 0)] []) 1 (FeatEng.FEBook.mk [] [])
        [] [] "usdt").2.previous_liquidity "usdt" =
      some (FeatEng.calculate_liquidity_score (FeatEng.FEBook.mk [] []) 10) ∧
    FeatEng.lookupKey (FeatEng.compute_anomaly_features (fun _ => 0)
        (FeatEng.FEState.mk [] [] [("usdt", 0)] []) 1 (FeatEng.FEBook.mk [] [])
        [] [] "usdt").2.previous_price "usdt" = some 1 :=
  C10_division_guards (fun _ => 0) (FeatEng.FEState.mk [] [] [("usdt", 0)] []) 1
    (FeatEng.FEBook.mk [] []) [] [] "usdt"
    (by
      intro p hp
      simp [FeatEng.lookupKey] at hp
      simp [← hp])
    (by
      intro p hp
      simp [FeatEng.lookupKey] at hp)

/-- C5: TTL caching of `compute_deviation_metrics`.  Starting from a miss, a
first successful call runs the fetch-and-compute step once and stores the
result; any second call whose age relative to the stored timestamp is below
the 300-second TTL returns the stored entry unchanged with the state
untouched and zero compute invocations — independent of the second call's
environment; a call whose age exceeds the TTL runs the compute step again
and overwrites both the stored entry and its timestamp. -/
theorem C5_cache_ttl
    (net1 net2 : DevCalc.NetEnv) (g1 g2 : ℕ → ℚ) (sq1 sq2 : ℚ → ℚ)
    (amp1 amp2 : Bool) (ts1 ts2 : ℤ) (st : DevCalc.CacheState)
    (t0 t1 t2 : ℚ) (coin : String) (days : ℕ)
    (hmiss : DevCalc.get_from_cache st t0 (coin ++ "_" ++ toString days ++ "d") = none)
    (hok1 : (DevCalc.deviation_body net1 g1 sq1 amp1 ts1 coin days).isOk = true)
    (hfresh : t1 - t0 < 300) (hexp : 300 < t2 - t0)
    (hok2 : (DevCalc.deviation_body net2 g2 sq2 amp2 ts2 coin days).isOk = true) :
    ∃ r1 st1,
      DevCalc.compute_deviation_metrics net1 g1 sq1 amp1 ts1 st t0 coin days =
        Except.ok (r1, st1, 1) ∧
      DevCalc.compute_deviation_metrics net2 g2 sq2 amp2 ts2 st1 t1 coin days =
        Except.ok (r1, st1, 0) ∧
      ∃ r2 st2,
        DevCalc.compute_deviation_metrics net2 g2 sq2 amp2 ts2 st1 t2 coin days =
          Except.ok (r2, st2, 1) ∧
        DevCalc.deviation_body net2 g2 sq2 amp2 ts2 coin days = Except.ok r2 ∧
        FeatEng.lookupKey st2.cache (coin ++ "_" ++ toString days ++ "d") = some r2 ∧
        FeatEng.lookupKey st2.cache_timestamps (coin ++ "_" ++ toString days ++ "d") =
          some t2 := by
  rcases hb1 : DevCalc.deviation_body net1 g1 sq1 amp1 ts1 coin days with e1 | r1
  · rw [hb1] at hok1
    simp [Except.isOk, Except.toBool] at hok1
  rcases hb2 : DevCalc.deviation_body net2 g2 sq2 amp2 ts2 coin days with e2 | r2
  · rw [hb2] at hok2
    simp [Except.isOk, Except.toBool] at hok2
  refine ⟨r1, DevCalc.set_cache st t0 (coin ++ "_" ++ toString days ++ "d") r1, ?_, ?_, ?_⟩
  · unfold DevCalc.compute_deviation_metrics
    dsimp only
    rw [hmiss, hb1]
  · have hv1 : DevCalc.get_from_cache
        (DevCalc.set_cache st t0 (coin ++ "_" ++ toString days ++ "d") r1) t1
        (coin ++ "_" ++ toString days ++ "d") = some r1 := by
      unfold DevCalc.get_from_cache DevCalc.is_cache_valid DevCalc.set_cache
      simp [lookupKey_insertKey_self, DevCalc.cache_ttl, hfresh]
    unfold DevCalc.compute_deviation_metrics
    dsimp only
    rw [hv1]
  · have hv2 : DevCalc.get_from_cache
        (DevCalc.set_cache st t0 (coin ++ "_" ++ toString days ++ "d") r1) t2
        (coin ++ "_" ++ toString days ++ "d") = none := by
      unfold DevCalc.get_from_cache DevCalc.is_cache_valid DevCalc.set_cache
      have : ¬ (t2 - t0 < DevCalc.cache_ttl) := by
        unfold DevCalc.cache_ttl
        linarith
      simp [lookupKey_insertKey_self, this]
    refine ⟨r2, DevCalc.set_cache
        (DevCalc.set_cache st t0 (coin ++ "_" ++ toString days ++ "d") r1) t2
        (coin ++ "_" ++ toString days ++ "d") r2, ?_, rfl, ?_, ?_⟩
    · unfold DevCalc.compute_deviation_metrics
      dsimp only
      rw [hv2, hb2]
    · unfold DevCalc.set_cache
      exact lookupKey_insertKey_self _ _ _
    · unfold DevCalc.set_cache
      exact lookupKey_insertKey_self _ _ _

/-- Witness for C5: concrete two-then-expired call sequence at times 0, 100
and 400 seconds for `usdt` over 7 days. -/
theorem C5_witness :
    ∃ r1 st1,
      DevCalc.compute_deviation_metrics (DevCalc.NetEnv.mk true [DevCalc.PricePoint.mk 0 1])
          (fun _ => 1) (fun _ => 0) false 0 DevCalc.CacheState.init 0 "usdt" 7 =
        Except.ok (r1, st1, 1) ∧
      DevCalc.compute_deviation_metrics (DevCalc.NetEnv.mk true [DevCalc.PricePoint.mk 3600 2])
          (fun _ => 1) (fun _ => 0) false 0 st1 100 "usdt" 7 =
        Except.ok (r1, st1, 0) ∧
      ∃ r2 st2,
        DevCalc.compute_deviation_metrics (DevCalc.NetEnv.mk true [DevCalc.PricePoint.mk 3600 2])
            (fun _ => 1) (fun _ => 0) false 0 st1 400 "usdt" 7 =
          Except.ok (r2, st2, 1) ∧
        DevCalc.deviation_body (DevCalc.NetEnv.mk true [DevCalc.PricePoint.mk 3600 2])
            (fun _ => 1) (fun _ => 0) false 0 "usdt" 7 = Except.ok r2 ∧
        FeatEng.lookupKey st2.cache ("usdt" ++ "_" ++ toString 7 ++ "d") = some r2 ∧
        FeatEng.lookupKey st2.cache_timestamps ("usdt" ++ "_" ++ toString 7 ++ "d") =
          some 400 :=
  C5_cache_ttl (DevCalc.NetEnv.mk true [DevCalc.PricePoint.mk 0 1])
    (DevCalc.NetEnv.mk true [DevCalc.PricePoint.mk 3600 2])
    (fun _ => 1) (fun _ => 1) (fun _ => 0) (fun _ => 0) false false 0 0
    DevCalc.CacheState.init 0 100 400 "usdt" 7
    rfl (by decide) (by norm_num) (by norm_num) (by decide)

/-- C3: for a symbol outside the supported table, `fetch_historical_prices`
does not surface its own `ValueError` — the blanket `except` swallows it —
and `compute_deviation_metrics` returns a normal (`Except.ok`) result whose
data is built entirely from the synthetic generator, for every network
environment.  This exhibits the divergence from the claimed hard failure. -/
theorem C3_unsupported_symbol_fallback
    (net : DevCalc.NetEnv) (g : ℕ → ℚ) (sqrtQ : ℚ → ℚ) (amp : Bool) (tsNow : ℤ)
    (st : DevCalc.CacheState) (now : ℚ) (coin : String) (days : ℕ)
    (hun : FeatEng.lookupKey DevCalc.coingecko_ids (DevCalc.strLower coin) = none)
    (hdays : 0 < days)
    (hmiss : DevCalc.get_from_cache st now (coin ++ "_" ++ toString days ++ "d") = none) :
    (DevCalc.fetch_historical_prices net g tsNow coin days).1 =
      DevCalc.PriceSource.synthetic ∧
    ∃ r st',
      DevCalc.compute_deviation_metrics net g sqrtQ amp tsNow st now coin days =
        Except.ok (r, st', 1) ∧
      r.data = DevCalc.calculate_ml_deviation amp
        (DevCalc.generate_synthetic_prices g tsNow days) ∧
      r.data_points = days * 24 := by
  have hfetch : DevCalc.fetch_historical_prices net g tsNow coin days =
      (DevCalc.PriceSource.synthetic, DevCalc.generate_synthetic_prices g tsNow days) := by
    unfold DevCalc.fetch_historical_prices
    rw [hun]
  have hne : DevCalc.generate_synthetic_prices g tsNow days ≠ [] := by
    unfold DevCalc.generate_synthetic_prices
    intro h
    have := congrArg List.length h
    simp at this
    omega
  have hbody : DevCalc.deviation_body net g sqrtQ amp tsNow coin days =
      Except.ok
        { id := coin
          period := toString days ++ "d"
          data := DevCalc.calculate_ml_deviation amp
            (DevCalc.generate_synthetic_prices g tsNow days)
          metrics := DevCalc.calculate_metrics sqrtQ
            (DevCalc.calculate_ml_deviation amp
              (DevCalc.generate_synthetic_prices g tsNow days))
          data_points := (DevCalc.calculate_ml_deviation amp
            (DevCalc.generate_synthetic_prices g tsNow days)).length
          ml_enabled := amp } := by
    unfold DevCalc.deviation_body
    rw [hfetch]
    dsimp only
    rw [if_neg hne]
  have hcomp : DevCalc.compute_deviation_metrics net g sqrtQ amp tsNow st now coin days =
      Except.ok
        ({ id := coin
           period := toString days ++ "d"
           data := DevCalc.calculate_ml_deviation amp
             (DevCalc.generate_synthetic_prices g tsNow days)
           metrics := DevCalc.calculate_metrics sqrtQ
             (DevCalc.calculate_ml_deviation amp
               (DevCalc.generate_synthetic_prices g tsNow days))
           data_points := (DevCalc.calculate_ml_deviation amp
             (DevCalc.generate_synthetic_prices g tsNow days)).length
           ml_enabled := amp },
         DevCalc.set_cache st now (coin ++ "_" ++ toString days ++ "d")
           { id := coin
             period := toString days ++ "d"
             data := DevCalc.calculate_ml_deviation amp
               (DevCalc.generate_synthetic_prices g tsNow days)
             metrics := DevCalc.calculate_metrics sqrtQ
               (DevCalc.calculate_ml_deviation amp
                 (DevCalc.generate_synthetic_prices g tsNow days))
             data_points := (DevCalc.calculate_ml_deviation amp
               (DevCalc.generate_synthetic_prices g tsNow days)).length
             ml_enabled := amp },
         1) := by
    unfold DevCalc.compute_deviation_metrics
    dsimp only
    rw [hmiss, hbody]
  have hlen : (DevCalc.calculate_ml_deviation amp
      (DevCalc.generate_synthetic_prices g tsNow days)).length = days * 24 := by
    unfold DevCalc.calculate_ml_deviation DevCalc.generate_synthetic_prices
    simp
  exact ⟨by rw [hfetch], _, _, hcomp, rfl, hlen⟩

/-- Witness for C3: the unsupported symbol `doge` over 7 days, empty cache,
with a healthy network environment. -/
theorem C3_witness :
    (DevCalc.fetch_historical_prices (DevCalc.NetEnv.mk true [DevCalc.PricePoint.mk 0 1])
        (fun _ => 1) 0 "doge" 7).1 = DevCalc.PriceSource.synthetic ∧
    ∃ r st',
      DevCalc.compute_deviation_metrics (DevCalc.NetEnv.mk true [DevCalc.PricePoint.mk 0 1])
          (fun _ => 1) (fun _ => 0) false 0 DevCalc.CacheState.init 0 "doge" 7 =
        Except.ok (r, st', 1) ∧
      r.data = DevCalc.calculate_ml_deviation false
        (DevCalc.generate_synthetic_prices (fun _ => 1) 0 7) ∧
      r.data_points = 7 * 24 :=
  C3_unsupported_symbol_fallback (DevCalc.NetEnv.mk true [DevCalc.PricePoint.mk 0 1])
    (fun _ => 1) (fun _ => 0) false 0 DevCalc.CacheState.init 0 "doge" 7
    (by decide) (by decide) rfl

theorem sumVolP_aggInsert (m : List Agg.PLevel) (o : Agg.FlatLevel) :
    sumVolP (Agg.aggInsert m o) = sumVolP m + o.volume_usd := by
  induction m with
  | nil => simp [Agg.aggInsert, sumVolP]
  | cons e rest ih =>
    by_cases h : e.price = o.price
    · simp [Agg.aggInsert, h, sumVolP]
      ring
    · simp [Agg.aggInsert, h, sumVolP] at ih ⊢
      rw [ih]
      ring

theorem sumVolP_foldl (orders : List Agg.FlatLevel) :
    ∀ m : List Agg.PLevel,
      sumVolP (orders.foldl Agg.aggInsert m) = sumVolP m + sumVolFlat orders := by
  induction orders with
  | nil => intro m; simp [sumVolFlat]
  | cons o rest ih =>
    intro m
    simp only [List.foldl_cons]
    rw [ih (Agg.aggInsert m o), sumVolP_aggInsert]
    simp [sumVolFlat]
    ring

theorem sumVolFlat_mergeSort (ls : List Agg.FlatLevel) (r : Agg.FlatLevel → Agg.FlatLevel → Bool) :
    sumVolFlat (ls.mergeSort r) = sumVolFlat ls := by
  unfold sumVolFlat
  exact ((List.mergeSort_perm ls r).map (fun l => l.volume_usd)).sum_eq

theorem aggInsert_price_mem (m : List Agg.PLevel) (o : Agg.FlatLevel) :
    ∀ x ∈ Agg.aggInsert m o, x.price ∈ m.map (fun e => e.price) ∨ x.price = o.price := by
  induction m with
  | nil =>
    intro x hx
    simp [Agg.aggInsert] at hx
    simp [hx]
  | cons e rest ih =>
    intro x hx
    by_cases h : e.price = o.price
    · simp [Agg.aggInsert, h] at hx
      rcases hx with hx | hx
      · simp [hx]
      · exact Or.inl (by simp [List.mem_map]; exact Or.inr ⟨x, hx, rfl⟩)
    · simp [Agg.aggInsert, h] at hx
      rcases hx with hx | hx
      · simp [hx]
      · rcases ih x hx with hm | ho
        · simp at hm
          exact Or.inl (by simp [hm])
        · exact Or.inr ho

theorem aggInsert_distinct (m : List Agg.PLevel) (o : Agg.FlatLevel)
    (h : m.Pairwise (fun a b => a.price ≠ b.price)) :
    (Agg.aggInsert m o).Pairwise (fun a b => a.price ≠ b.price) := by
  induction m with
  | nil => simp [Agg.aggInsert]
  | cons e rest ih =>
    rcases List.pairwise_cons.mp h with ⟨hne, hrest⟩
    by_cases hp : e.price = o.price
    · rw [Agg.aggInsert]
      simp only [if_pos hp]
      exact List.pairwise_cons.mpr ⟨by simpa using hne, hrest⟩
    · rw [Agg.aggInsert]
      simp only [if_neg hp]
      refine List.pairwise_cons.mpr ⟨?_, ih hrest⟩
      intro x hx
      rcases aggInsert_price_mem rest o x hx with hm | ho
      · rcases List.mem_map.mp hm with ⟨y, hy, hyx⟩
        rw [← hyx]
        exact hne y hy
      · rw [ho]
        exact hp
  
theorem aggregate_by_price_distinct (orders : List Agg.FlatLevel) :
    (Agg.aggregate_by_price orders).Pairwise (fun a b => a.price ≠ b.price) := by
  unfold Agg.aggregate_by_price
  have h : ∀ m : List Agg.PLevel, m.Pairwise (fun a b => a.price ≠ b.price) →
      (orders.foldl Agg.aggInsert m).Pairwise (fun a b => a.price ≠ b.price) := by
    induction orders with
    | nil => intro m hm; simpa using hm
    | cons o rest ih =>
      intro m hm
      simp only [List.foldl_cons]
      exact ih (Agg.aggInsert m o) (aggInsert_distinct m o hm)
  exact h [] (by simp)

theorem sumVolFlat_flattenBids (orderbooks : List (String × Agg.RawBook)) :
    sumVolFlat (Agg.flattenBids orderbooks) =
      (orderbooks.map (fun p => ((p.2.bids.getD []).map Agg.effUsd).sum)).sum := by
  induction orderbooks with
  | nil => simp [Agg.flattenBids, sumVolFlat]
  | cons b rest ih =>
    simp only [Agg.flattenBids, sumVolFlat, List.map_cons, List.flatten_cons,
      List.map_append, List.sum_append, List.map_map] at ih ⊢
    rw [ih]
    rfl

theorem sumVolFlat_flattenAsks (orderbooks : List (String × Agg.RawBook)) :
    sumVolFlat (Agg.flattenAsks orderbooks) =
      (orderbooks.map (fun p => ((p.2.asks.getD []).map Agg.effUsd).sum)).sum := by
  induction orderbooks with
  | nil => simp [Agg.flattenAsks, sumVolFlat]
  | cons b rest ih =>
    simp only [Agg.flattenAsks, sumVolFlat, List.map_cons, List.flatten_cons,
      List.map_append, List.sum_append, List.map_map] at ih ⊢
    rw [ih]
    rfl

/-- C7: the price-level merge conserves volume.  For every set of
per-exchange books and each side, the sum of `volume_usd` over the merged
levels equals the sum of the effective `volume_usd` of all raw input levels
of that side across exchanges, and the merged levels carry pairwise
distinct prices (no bucketing). -/
theorem C7_merge_conservation (orderbooks : List (String × Agg.RawBook)) :
    sumVolP (Agg.aggregate_by_price (Agg.sortBidsDesc (Agg.flattenBids orderbooks))) =
      (orderbooks.map (fun p => ((p.2.bids.getD []).map Agg.effUsd).sum)).sum ∧
    sumVolP (Agg.aggregate_by_price (Agg.sortAsksAsc (Agg.flattenAsks orderbooks))) =
      (orderbooks.map (fun p => ((p.2.asks.getD []).map Agg.effUsd).sum)).sum ∧
    (Agg.aggregate_by_price (Agg.sortBidsDesc (Agg.flattenBids orderbooks))).Pairwise
      (fun a b => a.price ≠ b.price) ∧
    (Agg.aggregate_by_price (Agg.sortAsksAsc (Agg.flattenAsks orderbooks))).Pairwise
      (fun a b => a.price ≠ b.price) := by
  refine ⟨?_, ?_, aggregate_by_price_distinct _, aggregate_by_price_distinct _⟩
  · unfold Agg.aggregate_by_price
    rw [sumVolP_foldl]
    unfold Agg.sortBidsDesc
    rw [sumVolFlat_mergeSort, sumVolFlat_flattenBids]
    simp [sumVolP]
  · unfold Agg.aggregate_by_price
    rw [sumVolP_foldl]
    unfold Agg.sortAsksAsc
    rw [sumVolFlat_mergeSort, sumVolFlat_flattenAsks]
    simp [sumVolP]

theorem calcDev_tracking_step (st : FeatEng.FEState) (d : ℚ) (coin : String)
    (th now s : ℚ)
    (hst : FeatEng.lookupKey st.deviation_start_time coin = some s)
    (hd : th < |d|) :
    FeatEng.calculate_deviation_duration st d coin th now =
      (roundq ((now - s) / 60) 2, st) := by
  unfold FeatEng.calculate_deviation_duration
  rw [if_pos hd, hst]
  dsimp only
  rw [hst]
  dsimp only [Option.getD]

theorem calcDev_fresh_step (st : FeatEng.FEState) (d : ℚ) (coin : String)
    (th now : ℚ)
    (hst : FeatEng.lookupKey st.deviation_start_time coin = none)
    (hd : th < |d|) :
    FeatEng.calculate_deviation_duration st d coin th now =
      (roundq ((now - now) / 60) 2,
       FeatEng.FEState.mk (FeatEng.insertKey st.deviation_start_time coin now)
         st.historical_volumes st.previous_liquidity st.previous_price) := by
  unfold FeatEng.calculate_deviation_duration
  rw [if_pos hd, hst]
  dsimp only
  rw [lookupKey_insertKey_self]
  rfl

theorem runDev_stored (coin : String) (th s : ℚ) (evals : List (ℚ × ℚ)) :
    ∀ st : FeatEng.FEState,
      FeatEng.lookupKey st.deviation_start_time coin = some s →
      (∀ e ∈ evals, th < |e.2|) →
      FeatEng.runDevDuration st coin th evals =
        evals.map (fun e => roundq ((e.1 - s) / 60) 2) := by
  induction evals with
  | nil => intro st hst hall; simp [FeatEng.runDevDuration]
  | cons e rest ih =>
    intro st hst hall
    unfold FeatEng.runDevDuration
    dsimp only
    rw [calcDev_tracking_step st e.2 coin th e.1 s hst (hall e (by simp))]
    rw [ih st hst (fun x hx => hall x (by simp [hx]))]
    simp

/-- Characterization of a run of evaluations that all lie above the
threshold: every returned duration is the rounded minute distance from one
fixed start time `s` (the stored one, or the first evaluation's time). -/
theorem runDev_above (st : FeatEng.FEState) (coin : String) (th : ℚ)
    (evals : List (ℚ × ℚ)) (hall : ∀ e ∈ evals, th < |e.2|) :
    ∃ s : ℚ, FeatEng.runDevDuration st coin th evals =
      evals.map (fun e => roundq ((e.1 - s) / 60) 2) := by
  rcases hst : FeatEng.lookupKey st.deviation_start_time coin with _ | s
  · cases evals with
    | nil => exact ⟨0, by simp [FeatEng.runDevDuration]⟩
    | cons e rest =>
      refine ⟨e.1, ?_⟩
      unfold FeatEng.runDevDuration
      dsimp only
      rw [calcDev_fresh_step st e.2 coin th e.1 hst (hall e (by simp))]
      rw [runDev_stored coin th e.1 rest _
        (lookupKey_insertKey_self _ _ _) (fun x hx => hall x (by simp [hx]))]
      simp
  · exact ⟨s, runDev_stored coin th s evals st hst hall⟩

/-- C8 counterexample: with tracking in progress since time 0, two
evaluations 0.1 seconds apart, both far above the threshold with strictly
increasing times, return durations `[0, 0]` — the two-decimal rounding of
minutes collapses them, so the returned duration does not strictly increase
while continuously above threshold. -/
theorem C8_counterexample :
    FeatEng.runDevDuration (FeatEng.FEState.mk [("usdt", 0)] [] [] []) "usdt" (1/2)
      [(0, 1), (1/10, 1)] = [0, 0] ∧
    ¬ (FeatEng.runDevDuration (FeatEng.FEState.mk [("usdt", 0)] [] [] []) "usdt" (1/2)
        [(0, 1), (1/10, 1)]).Chain' (· < ·) ∧
    (∀ e ∈ [((0:ℚ), (1:ℚ)), (1/10, 1)], 1/2 < |e.2|) ∧
    List.Chain' (fun a b : ℚ × ℚ => a.1 < b.1) [((0:ℚ), (1:ℚ)), (1/10, 1)] := by
  have hall : ∀ e ∈ [((0:ℚ), (1:ℚ)), (1/10, 1)], 1/2 < |e.2| := by
    intro e he
    rcases List.mem_cons.mp he with he | he
    · rw [he]; norm_num
    · simp at he
      rw [he]; norm_num
  have hq2 : roundq (1/600 : ℚ) 2 = 0 := by
    unfold roundq roundHalfEven
    norm_num
  have hrun : FeatEng.runDevDuration (FeatEng.FEState.mk [("usdt", 0)] [] [] []) "usdt"
      (1/2) [(0, 1), (1/10, 1)] = [0, 0] := by
    rw [runDev_stored "usdt" (1/2) 0 [(0, 1), (1/10, 1)]
      (FeatEng.FEState.mk [("usdt", 0)] [] [] []) (by simp [FeatEng.lookupKey]) hall]
    norm_num [roundq_zero, hq2]
  refine ⟨hrun, ?_, hall, ?_⟩
  · rw [hrun]
    simp
  · norm_num [List.chain'_cons, List.chain'_singleton]

/-- C8 amended: the deviation-duration state machine resets on any
below-threshold evaluation (duration 0, recorded start cleared), and across
a sequence of above-threshold evaluations with non-decreasing times the
returned durations are non-decreasing; they are strictly increasing
whenever consecutive evaluations are at least 1.2 seconds apart (two
0.01-minute rounding steps; closer evaluations can collapse to equal
rounded durations). -/
theorem C8_amended :
    (∀ (st : FeatEng.FEState) (coin : String) (now d : ℚ), |d| ≤ 1/2 →
      (FeatEng.calculate_deviation_duration st d coin (1/2) now).1 = 0 ∧
      FeatEng.lookupKey
        (FeatEng.calculate_deviation_duration st d coin (1/2) now).2.deviation_start_time
        coin = none) ∧
    (∀ (st : FeatEng.FEState) (coin : String) (evals : List (ℚ × ℚ)),
      (∀ e ∈ evals, 1/2 < |e.2|) →
      evals.Chain' (fun a b => a.1 ≤ b.1) →
      (FeatEng.runDevDuration st coin (1/2) evals).Chain' (· ≤ ·)) ∧
    (∀ (st : FeatEng.FEState) (coin : String) (evals : List (ℚ × ℚ)),
      (∀ e ∈ evals, 1/2 < |e.2|) →
      evals.Chain' (fun a b => a.1 + 6/5 ≤ b.1) →
      (FeatEng.runDevDuration st coin (1/2) evals).Chain' (· < ·)) := by
  refine ⟨?_, ?_, ?_⟩
  · intro st coin now d hd
    unfold FeatEng.calculate_deviation_duration
    rw [if_neg (not_lt.mpr hd)]
    exact ⟨rfl, lookupKey_eraseKey_self _ _⟩
  · intro st coin evals hall htimes
    obtain ⟨s, hmap⟩ := runDev_above st coin (1/2) evals hall
    rw [hmap, List.chain'_map]
    refine htimes.imp ?_
    intro a b hab
    exact roundq_mono 2 (by linarith)
  · intro st coin evals hall htimes
    obtain ⟨s, hmap⟩ := runDev_above st coin (1/2) evals hall
    rw [hmap, List.chain'_map]
    refine htimes.imp ?_
    intro a b hab
    exact roundq_two_strict (by linarith)

/-- Witness for C8: a below-threshold evaluation while tracking resets to 0
and clears the start; the run at times 0 and 60 seconds (gap ≥ 1.2 s) has
non-decreasing and strictly increasing durations. -/
theorem C8_witness :
    ((FeatEng.calculate_deviation_duration
        (FeatEng.FEState.mk [("usdt", 3)] [] [] []) 0 "usdt" (1/2) 7).1 = 0 ∧
      FeatEng.lookupKey
        (FeatEng.calculate_deviation_duration
          (FeatEng.FEState.mk [("usdt", 3)] [] [] []) 0 "usdt" (1/2) 7).2.deviation_start_time
        "usdt" = none) ∧
    (FeatEng.runDevDuration FeatEng.FEState.init "usdt" (1/2)
      [(0, 1), (60, 1)]).Chain' (· ≤ ·) ∧
    (FeatEng.runDevDuration FeatEng.FEState.init "usdt" (1/2)
      [(0, 1), (60, 1)]).Chain' (· < ·) :=
  ⟨C8_amended.1 (FeatEng.FEState.mk [("usdt", 3)] [] [] []) "usdt" 7 0 (by norm_num),
   C8_amended.2.1 FeatEng.FEState.init "usdt" [(0, 1), (60, 1)]
     (by
       intro e he
       rcases List.mem_cons.mp he with he | he
       · rw [he]; norm_num
       · simp at he
         rw [he]; norm_num)
     (by norm_num [List.chain'_cons, List.chain'_singleton]),
   C8_amended.2.2 FeatEng.FEState.init "usdt" [(0, 1), (60, 1)]
     (by
       intro e he
       rcases List.mem_cons.mp he with he | he
       · rw [he]; norm_num
       · simp at he
         rw [he]; norm_num)
     (by norm_num [List.chain'_cons, List.chain'_singleton])⟩

theorem aggInsert_nonneg (m : List Agg.PLevel) (o : Agg.FlatLevel)
    (hm : ∀ x ∈ m, 0 ≤ x.volume_usd) (ho : 0 ≤ o.volume_usd) :
    ∀ x ∈ Agg.aggInsert m o, 0 ≤ x.volume_usd := by
  induction m with
  | nil =>
    intro x hx
    simp [Agg.aggInsert] at hx
    simp [hx, ho]
  | cons e rest ih =>
    intro x hx
    by_cases h : e.price = o.price
    · simp [Agg.aggInsert, h] at hx
      rcases hx with hx | hx
      · have he := hm e (by simp)
        simp [hx]
        positivity
      · exact hm x (by simp [hx])
    · simp [Agg.aggInsert, h] at hx
      rcases hx with hx | hx
      · exact hm x (by simp [hx])
      · exact ih (fun y hy => hm y (by simp [hy])) x hx

theorem aggregate_by_price_nonneg (orders : List Agg.FlatLevel)
    (h : ∀ l ∈ orders, 0 ≤ l.volume_usd) :
    ∀ x ∈ Agg.aggregate_by_price orders, 0 ≤ x.volume_usd := by
  unfold Agg.aggregate_by_price
  have hgen : ∀ (os : List Agg.FlatLevel) (m : List Agg.PLevel),
      (∀ l ∈ os, 0 ≤ l.volume_usd) → (∀ x ∈ m, 0 ≤ x.volume_usd) →
      ∀ x ∈ os.foldl Agg.aggInsert m, 0 ≤ x.volume_usd := by
    intro os
    induction os with
    | nil => intro m _ hm; simpa using hm
    | cons o rest ih =>
      intro m hos hm
      simp only [List.foldl_cons]
      exact ih (Agg.aggInsert m o)
        (fun l hl => hos l (by simp [hl]))
        (aggInsert_nonneg m o hm (hos o (by simp)))
  exact hgen orders [] h (by simp)

theorem cumulate_lb (orders : List Agg.PLevel)
    (h : ∀ x ∈ orders, 0 ≤ x.volume_usd) :
    ∀ acc : ℚ, ∀ y ∈ Agg.cumulate acc orders, acc ≤ y.cumulative_usd := by
  induction orders with
  | nil => intro acc y hy; simp [Agg.cumulate] at hy
  | cons o rest ih =>
    intro acc y hy
    simp only [Agg.cumulate, List.mem_cons] at hy
    rcases hy with hy | hy
    · have := h o (by simp)
      simp [hy]
      linarith
    · have hrec := ih (fun x hx => h x (by simp [hx])) (acc + o.volume_usd) y hy
      have := h o (by simp)
      linarith

theorem cumulate_pairwise (orders : List Agg.PLevel)
    (h : ∀ x ∈ orders, 0 ≤ x.volume_usd) :
    ∀ acc : ℚ, (Agg.cumulate acc orders).Pairwise
      (fun a b => a.cumulative_usd ≤ b.cumulative_usd) := by
  induction orders with
  | nil => intro acc; simp [Agg.cumulate]
  | cons o rest ih =>
    intro acc
    simp only [Agg.cumulate]
    refine List.pairwise_cons.mpr ⟨?_, ih (fun x hx => h x (by simp [hx])) (acc + o.volume_usd)⟩
    intro y hy
    exact cumulate_lb rest (fun x hx => h x (by simp [hx])) (acc + o.volume_usd) y hy

theorem get?_pairwise_rel {α : Type} {R : α → α → Prop} {l : List α}
    (hp : l.Pairwise R) (hrefl : ∀ x ∈ l, R x x) {i j : ℕ} (hij : i ≤ j)
    {x y : α} (hx : l.get? i = some x) (hy : l.get? j = some y) : R x y := by
  rcases List.get?_eq_some.mp hx with ⟨hi, hgi⟩
  rcases List.get?_eq_some.mp hy with ⟨hj, hgj⟩
  rcases lt_or_eq_of_le hij with hlt | heq
  · have := List.pairwise_iff_get.mp hp ⟨i, hi⟩ ⟨j, hj⟩ hlt
    rw [hgi, hgj] at this
    exact this
  · subst heq
    rw [hx] at hy
    injection hy with hy
    subst hy
    exact hrefl x (List.get?_mem hx)

theorem pairwise_filterMap_get? {α : Type} {R : α → α → Prop} {l : List α}
    (hp : l.Pairwise R) (hrefl : ∀ x ∈ l, R x x) :
    ∀ is' : List ℕ, is'.Pairwise (· ≤ ·) →
      (is'.filterMap (fun i => l.get? i)).Pairwise R := by
  intro is'
  induction is' with
  | nil => intro _; simp
  | cons i rest ih =>
    intro hPair
    rcases List.pairwise_cons.mp hPair with ⟨hle, hrest⟩
    rcases hgi : l.get? i with _ | x
    · rw [List.filterMap_cons, hgi]
      exact ih hrest
    · rw [List.filterMap_cons, hgi]
      refine List.pairwise_cons.mpr ⟨?_, ih hrest⟩
      intro y hy
      rcases List.mem_filterMap.mp hy with ⟨j, hj, hgj⟩
      exact get?_pairwise_rel hp hrefl (hle j hj) hgi hgj

/-- Pairwise monotonicity of the sampled side: the cumulative values of
`_sample_orderbook_side` are non-decreasing in list order whenever all
merged volumes are non-negative. -/
theorem sample_side_pairwise (orders : List Agg.PLevel) (depth_levels : ℕ)
    (b : Bool) (h : ∀ x ∈ orders, 0 ≤ x.volume_usd) :
    (Agg.sample_orderbook_side orders depth_levels b).Pairwise
      (fun a c => a.cumulative_usd ≤ c.cumulative_usd) := by
  unfold Agg.sample_orderbook_side
  by_cases h1 : orders = []
  · simp [h1]
  rw [if_neg h1]
  dsimp only
  by_cases h2 : (Agg.cumulate 0 orders).length ≤ depth_levels
  · rw [if_pos h2]
    exact cumulate_pairwise orders h 0
  · rw [if_neg h2]
    have hp := cumulate_pairwise orders h 0
    have hrefl : ∀ x ∈ Agg.cumulate 0 orders,
        x.cumulative_usd ≤ x.cumulative_usd := fun x _ => le_refl _
    have hmono : ((List.range depth_levels).map (fun i : ℕ =>
        (Int.floor ((i : ℚ) * ((Agg.cumulate 0 orders).length / (depth_levels : ℚ)))).toNat)).Pairwise
        (· ≤ ·) := by
      refine (List.pairwise_lt_range depth_levels).map _ ?_
      intro a c hac
      have hstep : (0:ℚ) ≤ ((Agg.cumulate 0 orders).length / (depth_levels : ℚ)) := by
        positivity
      have : ((a:ℚ) * ((Agg.cumulate 0 orders).length / (depth_levels : ℚ))) ≤
          ((c:ℚ) * ((Agg.cumulate 0 orders).length / (depth_levels : ℚ))) := by
        have hac' : ((a:ℚ)) ≤ (c:ℚ) := by exact_mod_cast le_of_lt hac
        exact mul_le_mul_of_nonneg_right hac' hstep
      exact Int.toNat_le_toNat (Int.floor_le_floor this)
    have := pairwise_filterMap_get? hp hrefl _ hmono
    rwa [List.filterMap_map] at this

theorem flattenBids_nonneg (orderbooks : List (String × Agg.RawBook))
    (h : ∀ p ∈ orderbooks, ∀ lv ∈ p.2.bids.getD [], 0 ≤ Agg.effUsd lv) :
    ∀ l ∈ Agg.flattenBids orderbooks, 0 ≤ l.volume_usd := by
  intro l hl
  unfold Agg.flattenBids at hl
  rcases List.mem_flatten.mp hl with ⟨inner, hinner, hlin⟩
  rcases List.mem_map.mp hinner with ⟨p, hp, rfl⟩
  rcases List.mem_map.mp hlin with ⟨lv, hlv, rfl⟩
  exact h p hp lv hlv

theorem flattenAsks_nonneg (orderbooks : List (String × Agg.RawBook))
    (h : ∀ p ∈ orderbooks, ∀ lv ∈ p.2.asks.getD [], 0 ≤ Agg.effUsd lv) :
    ∀ l ∈ Agg.flattenAsks orderbooks, 0 ≤ l.volume_usd := by
  intro l hl
  unfold Agg.flattenAsks at hl
  rcases List.mem_flatten.mp hl with ⟨inner, hinner, hlin⟩
  rcases List.mem_map.mp hinner with ⟨p, hp, rfl⟩
  rcases List.mem_map.mp hlin with ⟨lv, hlv, rfl⟩
  exact h p hp lv hlv

/-- C6: in the aggregated book, `cumulative_usd` is monotonically
non-decreasing walking away from the best price on each side — both on the
full merged-and-cumulated ladders and on the final output after depth
sampling — whenever every input level has a non-negative effective
`volume_usd`. -/
theorem C6_cumulative_monotone (orderbooks : List (String × Agg.RawBook))
    (depth_levels : ℕ) (hd : 0 < depth_levels)
    (hb : ∀ p ∈ orderbooks, ∀ lv ∈ p.2.bids.getD [], 0 ≤ Agg.effUsd lv)
    (ha : ∀ p ∈ orderbooks, ∀ lv ∈ p.2.asks.getD [], 0 ≤ Agg.effUsd lv) :
    ((Agg.aggregate_orderbooks orderbooks depth_levels).bids).Chain'
      (fun a b => a.cumulative_usd ≤ b.cumulative_usd) ∧
    ((Agg.aggregate_orderbooks orderbooks depth_levels).asks).Chain'
      (fun a b => a.cumulative_usd ≤ b.cumulative_usd) ∧
    (Agg.cumulate 0
      (Agg.aggregate_by_price (Agg.sortBidsDesc (Agg.flattenBids orderbooks)))).Chain'
      (fun a b => a.cumulative_usd ≤ b.cumulative_usd) ∧
    (Agg.cumulate 0
      (Agg.aggregate_by_price (Agg.sortAsksAsc (Agg.flattenAsks orderbooks)))).Chain'
      (fun a b => a.cumulative_usd ≤ b.cumulative_usd) := by
  have hbflat := flattenBids_nonneg orderbooks hb
  have haflat := flattenAsks_nonneg orderbooks ha
  have hbsorted : ∀ l ∈ Agg.sortBidsDesc (Agg.flattenBids orderbooks), 0 ≤ l.volume_usd :=
    fun l hl => hbflat l ((List.mergeSort_perm _ _).mem_iff.mp hl)
  have hasorted : ∀ l ∈ Agg.sortAsksAsc (Agg.flattenAsks orderbooks), 0 ≤ l.volume_usd :=
    fun l hl => haflat l ((List.mergeSort_perm _ _).mem_iff.mp hl)
  have hbagg := aggregate_by_price_nonneg _ hbsorted
  have haagg := aggregate_by_price_nonneg _ hasorted
  refine ⟨?_, ?_, (cumulate_pairwise _ hbagg 0).chain', (cumulate_pairwise _ haagg 0).chain'⟩
  · unfold Agg.aggregate_orderbooks
    by_cases hob : orderbooks = []
    · rw [if_pos hob]
      simp
    · rw [if_neg hob]
      exact (sample_side_pairwise _ depth_levels true hbagg).chain'
  · unfold Agg.aggregate_orderbooks
    by_cases hob : orderbooks = []
    · rw [if_pos hob]
      simp
    · rw [if_neg hob]
      exact (sample_side_pairwise _ depth_levels false haagg).chain'

/-- Witness for C6: a one-exchange book with two bid levels and one ask
level, sampled to depth 2. -/
theorem C6_witness :
    ((Agg.aggregate_orderbooks
        [("binance", Agg.RawBook.mk none
          (some [Agg.InLevel.mk 1 2 none, Agg.InLevel.mk (99/100) 5 (some 3)])
          (some [Agg.InLevel.mk (101/100) 4 none]))] 2).bids).Chain'
      (fun a b => a.cumulative_usd ≤ b.cumulative_usd) ∧
    ((Agg.aggregate_orderbooks
        [("binance", Agg.RawBook.mk none
          (some [Agg.InLevel.mk 1 2 none, Agg.InLevel.mk (99/100) 5 (some 3)])
          (some [Agg.InLevel.mk (101/100) 4 none]))] 2).asks).Chain'
      (fun a b => a.cumulative_usd ≤ b.cumulative_usd) ∧
    (Agg.cumulate 0 (Agg.aggregate_by_price (Agg.sortBidsDesc (Agg.flattenBids
        [("binance", Agg.RawBook.mk none
          (some [Agg.InLevel.mk 1 2 none, Agg.InLevel.mk (99/100) 5 (some 3)])
          (some [Agg.InLevel.mk (101/100) 4 none]))])))).Chain'
      (fun a b => a.cumulative_usd ≤ b.cumulative_usd) ∧
    (Agg.cumulate 0 (Agg.aggregate_by_price (Agg.sortAsksAsc (Agg.flattenAsks
        [("binance", Agg.RawBook.mk none
          (some [Agg.InLevel.mk 1 2 none, Agg.InLevel.mk (99/100) 5 (some 3)])
          (some [Agg.InLevel.mk (101/100) 4 none]))])))).Chain'
      (fun a b => a.cumulative_usd ≤ b.cumulative_usd) :=
  C6_cumulative_monotone
    [("binance", Agg.RawBook.mk none
      (some [Agg.InLevel.mk 1 2 none, Agg.InLevel.mk (99/100) 5 (some 3)])
      (some [Agg.InLevel.mk (101/100) 4 none]))] 2 (by norm_num)
    (by
      intro p hp lv hlv
      simp at hp
      subst hp
      simp at hlv
      rcases hlv with hlv | hlv <;> rw [hlv] <;> norm_num [Agg.effUsd])
    (by
      intro p hp lv hlv
      simp at hp
      subst hp
      simp at hlv
      rw [hlv]
      norm_num [Agg.effUsd])
